import Mathlib

/-!
Verification of the transform (pass) library declared in
src/tket/include/tket/Transformations/OptimisationPass.hpp.

The repository provides only the header: pass signatures, default
arguments, and doc comments stating each pass's Expects/Produces
alphabet and side conditions.  The pass bodies are not part of src/,
so every rewrite procedure below is modelled from the spec (and from
the header's own doc comments), faithful to their words: circuits are
DAGs flattened to command sequences, transforms are pure functions
returning the mutated circuit together with a changed flag or an
error, and the combinator engine (sequencing, fixed-point repetition,
criterion-gated acceptance) follows section 4.1 of the spec.
-/

namespace Tket

/-- Spanning-structure policy used when expanding a multi-qubit
primitive into two-qubit gates (from the source declaration of
CXConfigType referenced by optimise_via_PhaseGadget). -/
inductive CXConfigType where
  | Snake
  | Tree
  | Star
  | MultiQGate
deriving DecidableEq, Repr

/-- Operation-type tags: the gates named in the header's Expects and
Produces contracts, plus SWAP, PhaseGadget and an unrecognized Custom
gate used by the spec's error scenarios. -/
inductive OpType where
  | CX
  | CZ
  | TK1
  | TK2
  | Rx
  | Rz
  | X
  | Z
  | H
  | SX
  | ECR
  | ZZMax
  | PhasedX
  | XXPhase
  | SWAP
  | PhaseGadget
  | Custom
deriving DecidableEq, Repr

/-- An operation: an OpType tag, the qubit wires it acts on, and its
numeric parameters (spec section 3, Circuit data model). -/
structure Op where
  type : OpType
  args : List Nat
  params : List Rat
deriving DecidableEq, Repr

/-- Modelled from the spec: the Circuit IR (an external collaborator,
not under src/), flattened to its topologically ordered command
sequence.  `perm` is the qubit-to-wire mapping recording implicit
wire swaps; `createdQubits` and `discardedQubits` record qubits
created or discarded partway through the circuit (the constrained
mid-circuit boundary feature of spec section 3). -/
structure Circuit where
  nQubits : Nat
  ops : List Op
  perm : List Nat
  createdQubits : List Nat
  discardedQubits : List Nat
deriving DecidableEq, Repr

/-- Error taxonomy of spec section 7. -/
inductive TransformError where
  | PreconditionError
  | UnsupportedCircuitError
  | NonTerminationError
deriving DecidableEq, Repr

/-- Outcome of one transform application: a changed flag, or a fatal
error. -/
inductive TOutcome where
  | ok (changed : Bool)
  | error (e : TransformError)
deriving DecidableEq, Repr

/-- State of the circuit after a transform application together with
its outcome (models in-place mutation: on an error the circuit is the
unmodified input). -/
structure ApplyResult where
  circ : Circuit
  outcome : TOutcome
deriving DecidableEq, Repr

/-- Modelled from the spec: a Transform wraps a rewrite procedure
`apply(circuit) -> changed` (spec section 2; the Transform class body
is not under src/).  Applications are pure functions of the circuit
content (spec section 3). -/
structure Transform where
  apply : Circuit → ApplyResult

/-- Modelled from the spec: build a transform from a rewrite function;
the changed flag reports whether the circuit content differs, and an
unchanged circuit is returned untouched (idempotent-detectable
contract, spec section 4.1). -/
def mkPass (f : Circuit → Circuit) : Transform :=
  ⟨fun c => if f c = c then ⟨c, .ok false⟩ else ⟨f c, .ok true⟩⟩

/-- Modelled from the spec: a transform whose structural or alphabet
precondition is checked eagerly before any rewriting; on violation it
fails with the given error and never partially applies (spec
section 7). -/
def mkCheckedPass (pre : Circuit → Bool) (e : TransformError) (f : Circuit → Circuit) :
    Transform :=
  ⟨fun c => if pre c then (mkPass f).apply c else ⟨c, .error e⟩⟩

/-- Modelled from the spec: Sequence combinator; applies each in
order, overall changed is the logical OR of constituents, errors
propagate (spec section 4.1). -/
def sequenceT (t1 t2 : Transform) : Transform :=
  ⟨fun c =>
    match t1.apply c with
    | ⟨c1, .error e⟩ => ⟨c1, .error e⟩
    | ⟨c1, .ok b1⟩ =>
      match t2.apply c1 with
      | ⟨c2, .error e⟩ => ⟨c2, .error e⟩
      | ⟨c2, .ok b2⟩ => ⟨c2, .ok (b1 || b2)⟩⟩

/-- Modelled from the spec: Conditional-accept combinator; the
candidate is built by applying the transform to a copy, the criterion
is evaluated on (original, candidate), and on rejection the original
is left untouched with changed = false (spec section 4.1). -/
def conditionalAccept (t : Transform) (criterion : Circuit → Circuit → Bool) : Transform :=
  ⟨fun c =>
    match t.apply c with
    | ⟨_, .error e⟩ => ⟨c, .error e⟩
    | ⟨cand, .ok _⟩ => if criterion c cand then ⟨cand, .ok true⟩ else ⟨c, .ok false⟩⟩

/-- Modelled from the spec: Repeat-to-fixpoint combinator with its
defensive iteration budget; applies the transform until it reports
changed = false, failing with NonTerminationError when the budget is
exhausted (spec section 4.1). -/
def repeatFix : Nat → Transform → Circuit → ApplyResult
  | 0, _, c => ⟨c, .error .NonTerminationError⟩
  | fuel + 1, t, c =>
    match t.apply c with
    | ⟨c1, .error e⟩ => ⟨c1, .error e⟩
    | ⟨c1, .ok false⟩ => ⟨c1, .ok false⟩
    | ⟨c1, .ok true⟩ =>
      match repeatFix fuel t c1 with
      | ⟨c2, .ok _⟩ => ⟨c2, .ok true⟩
      | ⟨c2, .error e⟩ => ⟨c2, .error e⟩

/-- Single-qubit gate types among the catalog. -/
def isSingleQubitType : OpType → Bool
  | .Rx | .Rz | .X | .Z | .H | .SX | .TK1 | .PhasedX => true
  | _ => false

/-- Self-inverse gate types, cancelled in adjacent pairs by the
Clifford-style squashing steps. -/
def selfInverseType : OpType → Bool
  | .CX | .CZ | .X | .Z | .H | .SWAP => true
  | _ => false

/-- A parameterless two-qubit gate. -/
def mk2q (t : OpType) (a b : Nat) : Op := ⟨t, [a, b], []⟩

/-- A TK1 rotation on one qubit. -/
def mkTK1 (q : Nat) (ps : List Rat) : Op := ⟨.TK1, [q], ps⟩

/-- Chain of two-qubit gates along consecutive pairs of the qubit
list (the Snake linear-chain spanning structure of spec section 3). -/
def chain2q (t : OpType) : List Nat → List Op
  | a :: b :: rest => mk2q t a b :: chain2q t (b :: rest)
  | _ => []

/-- One layer of the balanced Tree spanning structure: CX gates on
disjoint adjacent pairs, returning the surviving qubits. -/
def pairUpCX : List Nat → List Op × List Nat
  | a :: b :: rest =>
    let r := pairUpCX rest
    (mk2q .CX a b :: r.1, b :: r.2)
  | [a] => ([], [a])
  | [] => ([], [])

/-- Balanced-tree CX structure (the Tree policy of spec section 3),
with a fuel bound of the qubit count. -/
def treeCX : Nat → List Nat → List Op
  | _, [] => []
  | _, [_] => []
  | 0, _ => []
  | fuel + 1, qs => (pairUpCX qs).1 ++ treeCX fuel (pairUpCX qs).2

/-- Modelled from the spec: expansion of a phase gadget over the
given qubits into CX and TK1 gates, following the chosen CX
configuration strategy (spec sections 3 and 4.6).  Snake chains
consecutive pairs; Star routes all interactions through the first
qubit as hub; Tree uses the balanced pairing; MultiQGate would keep a
native multi-qubit primitive, but the target alphabet of CX and TK1
has none, so it falls back to the linear chain. -/
def expandGadget (cfg : CXConfigType) (qs : List Nat) (ps : List Rat) : List Op :=
  match qs with
  | [] => []
  | q0 :: rest =>
    match cfg with
    | .Star =>
      let spokes := rest.map (fun q => mk2q .CX q q0)
      spokes ++ [mkTK1 q0 ps] ++ spokes.reverse
    | .Tree =>
      let t := treeCX (q0 :: rest).length (q0 :: rest)
      t ++ [mkTK1 ((q0 :: rest).getLastD q0) ps] ++ t.reverse
    | _ =>
      let down := chain2q .CX (q0 :: rest)
      down ++ [mkTK1 ((q0 :: rest).getLastD q0) ps] ++ down.reverse

/-- Modelled from the spec: local resynthesis of one operation into
the CX plus TK1 alphabet (the Cartan/KAK-style decomposition target of
spec section 4.2; the decomposition routines are not under src/).  CX
and TK1 are kept, a SWAP becomes its three-CX expansion, a phase
gadget is expanded along the linear chain, and any other gate becomes
single-qubit TK1 rotations around a CX chain over its wires. -/
def toCXTK1 : Op → List Op
  | ⟨.CX, qs, ps⟩ => [⟨.CX, qs, ps⟩]
  | ⟨.TK1, qs, ps⟩ => [⟨.TK1, qs, ps⟩]
  | ⟨.SWAP, [a, b], _⟩ => [mk2q .CX a b, mk2q .CX b a, mk2q .CX a b]
  | ⟨.PhaseGadget, qs, ps⟩ => expandGadget .Snake qs ps
  | ⟨_, qs, ps⟩ =>
      qs.map (fun q => mkTK1 q ps) ++ chain2q .CX qs ++ qs.map (fun q => mkTK1 q [])

/-- Modelled from the spec: resynthesis into the TK2 plus TK1
alphabet.  A SWAP is absorbed into a single TK2 interaction, which is
why the TK2 target never needs an implicit wire swap. -/
def toTK2TK1 : Op → List Op
  | ⟨.TK2, qs, ps⟩ => [⟨.TK2, qs, ps⟩]
  | ⟨.TK1, qs, ps⟩ => [⟨.TK1, qs, ps⟩]
  | ⟨.SWAP, [a, b], ps⟩ => [⟨.TK2, [a, b], ps⟩]
  | ⟨_, qs, ps⟩ =>
      qs.map (fun q => mkTK1 q ps) ++ chain2q .TK2 qs ++ qs.map (fun q => mkTK1 q [])

/-- Modelled from the spec: rebase into the OQC primitives Rz, SX and
ECR (header doc for synthesise_OQC). -/
def toOQC : Op → List Op
  | ⟨.Rz, qs, ps⟩ => [⟨.Rz, qs, ps⟩]
  | ⟨.SX, qs, ps⟩ => [⟨.SX, qs, ps⟩]
  | ⟨.ECR, qs, ps⟩ => [⟨.ECR, qs, ps⟩]
  | ⟨_, qs, ps⟩ =>
      qs.map (fun q => ⟨.Rz, [q], ps⟩) ++ qs.map (fun q => ⟨.SX, [q], []⟩) ++
        chain2q .ECR qs

/-- Modelled from the spec: rebase into the HQS primitives ZZMax,
PhasedX and Rz (header doc for synthesise_HQS). -/
def toHQS : Op → List Op
  | ⟨.Rz, qs, ps⟩ => [⟨.Rz, qs, ps⟩]
  | ⟨.PhasedX, qs, ps⟩ => [⟨.PhasedX, qs, ps⟩]
  | ⟨.ZZMax, qs, ps⟩ => [⟨.ZZMax, qs, ps⟩]
  | ⟨_, qs, ps⟩ =>
      qs.map (fun q => ⟨.Rz, [q], ps⟩) ++ qs.map (fun q => ⟨.PhasedX, [q], []⟩) ++
        chain2q .ZZMax qs

/-- Modelled from the spec: rebase into the UMD primitives XXPhase,
PhasedX and Rz (header doc for synthesise_UMD). -/
def toUMD : Op → List Op
  | ⟨.Rz, qs, ps⟩ => [⟨.Rz, qs, ps⟩]
  | ⟨.PhasedX, qs, ps⟩ => [⟨.PhasedX, qs, ps⟩]
  | ⟨.XXPhase, qs, ps⟩ => [⟨.XXPhase, qs, ps⟩]
  | ⟨_, qs, ps⟩ =>
      qs.map (fun q => ⟨.Rz, [q], ps⟩) ++ qs.map (fun q => ⟨.PhasedX, [q], []⟩) ++
        chain2q .XXPhase qs

/-- The fixed reference alphabet that try_zx_graphlike_optimisation
rebases to (header line 64). -/
def zxAlphabet : List OpType := [.Rx, .Rz, .X, .Z, .H, .CZ, .CX]

/-- Modelled from the spec: rebase of one operation into the fixed ZX
reference alphabet. -/
def toZXBasis (op : Op) : List Op :=
  if op.type ∈ zxAlphabet then [op]
  else
    op.args.map (fun q => ⟨.Rz, [q], op.params⟩) ++ op.args.map (fun q => ⟨.H, [q], []⟩) ++
      chain2q .CZ op.args

/-- Modelled from the spec: Clifford-style squashing step cancelling
adjacent equal self-inverse gates, applied recursively (spec
section 4.4; the stabilizer-tableau resynthesis is not under src/). -/
def squashInverses : List Op → List Op
  | [] => []
  | a :: rest =>
    match squashInverses rest with
    | [] => [a]
    | b :: l => if a = b ∧ selfInverseType a.type = true then l else a :: b :: l

/-- Relabel the entries of a wire permutation by swapping two wires. -/
def swapPerm (p : List Nat) (a b : Nat) : List Nat :=
  p.map (fun w => if w = a then b else if w = b then a else w)

/-- Modelled from the spec: with allow_swaps, SWAP operations are
absorbed into the implicit qubit-to-wire relabeling at the boundary
instead of being synthesised as gates (spec section 4.2). -/
def absorbSwaps : List Op → List Nat → List Op × List Nat
  | [], p => ([], p)
  | op :: rest, p =>
    match op with
    | ⟨.SWAP, [a, b], _⟩ => absorbSwaps rest (swapPerm p a b)
    | _ =>
      let r := absorbSwaps rest p
      (op :: r.1, r.2)

/-- The allow_swaps step: absorb SWAPs into the wire permutation when
permitted, otherwise leave operations and permutation alone. -/
def swapsStep (allow_swaps : Bool) (c : Circuit) : List Op × List Nat :=
  if allow_swaps then absorbSwaps c.ops c.perm else (c.ops, c.perm)

/-- Modelled from the spec: the peephole / Clifford rewrite pipeline
producing CX and TK1 (spec sections 4.2 and 4.4): optionally absorb
SWAPs into the wire relabeling, resynthesise every window into CX and
TK1, and squash self-inverse pairs. -/
def peepholeRewrite (allow_swaps : Bool) (c : Circuit) : Circuit :=
  let r := swapsStep allow_swaps c
  { c with ops := squashInverses (r.1.flatMap toCXTK1), perm := r.2 }

/-- Modelled from the spec: peephole optimisation pass of the header
(Expects any gates, Produces CX and TK1, allow_swaps may introduce
implicit wire swaps). -/
def peephole_optimise_2q (allow_swaps : Bool := true) : Transform :=
  mkPass (peepholeRewrite allow_swaps)

/-- Modelled from the spec: the rewrite used by the TK2 target of
full_peephole_optimise; SWAPs are absorbed into TK2 interactions, so
the allow_swaps flag plays no part. -/
def tk2Rewrite (c : Circuit) : Circuit :=
  { c with ops := squashInverses (c.ops.flatMap toTK2TK1) }

/-- Modelled from the spec: full peephole optimisation with a choice
of target two-qubit gate; per the header doc, the allow_swaps
parameter has no effect when the target gate is TK2. -/
def full_peephole_optimise (allow_swaps : Bool := true)
    (target_2qb_gate : OpType := OpType.CX) : Transform :=
  if target_2qb_gate = .TK2 then mkPass tk2Rewrite
  else mkPass (peepholeRewrite allow_swaps)

/-- The header's structural precondition for the ZX pass: the circuit
contains created or discarded qubits. -/
def hasCreatedOrDiscarded (c : Circuit) : Bool :=
  !(c.createdQubits.isEmpty && c.discardedQubits.isEmpty)

/-- Modelled from the spec: the ZX-calculus simplification and
extraction, abstracted as a rewrite of the command sequence (spider
fusion and friends are not under src/). -/
def zxRewrite (c : Circuit) : Circuit :=
  { c with ops := squashInverses (c.ops.flatMap toZXBasis) }

/-- Modelled from the spec: ZX graphlike optimisation; fails eagerly
with UnsupportedCircuitError when the circuit contains created or
discarded qubits, before any rewriting begins (header line 55, spec
sections 4.3 and 7). -/
def zx_graphlike_optimisation : Transform :=
  mkCheckedPass (fun c => !hasCreatedOrDiscarded c) .UnsupportedCircuitError zxRewrite

/-- Modelled from the spec: the rebase to the fixed ZX reference
alphabet applied before the gated ZX optimisation. -/
def rebaseZX : Transform :=
  mkPass (fun c => { c with ops := c.ops.flatMap toZXBasis })

/-- Modelled from the spec: rebase then ZX optimisation, gated by the
caller's acceptance criterion; on rejection the original pre-rebase
circuit is restored unchanged (header line 63, spec section 4.3). -/
def try_zx_graphlike_optimisation (criterion : Circuit → Circuit → Bool) : Transform :=
  conditionalAccept (sequenceT rebaseZX zx_graphlike_optimisation) criterion

/-- The Expects alphabet of clifford_simp and synthesise_HQS: CX and
any single-qubit gates (header lines 86 and 112). -/
def cliffordExpects (c : Circuit) : Bool :=
  c.ops.all (fun op => op.type = .CX || isSingleQubitType op.type)

/-- Modelled from the spec: Clifford simplification; checks its
Expects alphabet eagerly (PreconditionError, never partially applied)
and rewrites into CX and TK1. -/
def clifford_simp (allow_swaps : Bool := true) : Transform :=
  mkCheckedPass cliffordExpects .PreconditionError (peepholeRewrite allow_swaps)

/-- Modelled from the spec: the two-qubit Cartan squash into CX and
TK1 that lets the hyper pass accept any alphabet before it runs
clifford_simp. -/
def twoQubitSquash : Transform :=
  mkPass (fun c => { c with ops := c.ops.flatMap toCXTK1 })

/-- Modelled from the spec: hyper_clifford_squash; per the header doc
it runs clifford_simp (its Expects being any gates, a two-qubit
squash to CX and TK1 comes first). -/
def hyper_clifford_squash (allow_swaps : Bool := true) : Transform :=
  sequenceT twoQubitSquash (clifford_simp allow_swaps)

/-- Modelled from the spec: alignment step of the Pauli-gadget
resynthesis; adjacent phase gadgets over the same qubit string are
merged, adding their rotation parameters (spec section 4.6). -/
def mergeGadgets : List Op → List Op
  | [] => []
  | a :: rest =>
    match mergeGadgets rest with
    | [] => [a]
    | b :: l =>
      if a.type = .PhaseGadget ∧ b.type = .PhaseGadget ∧ a.args = b.args then
        ⟨.PhaseGadget, a.args, List.zipWith (· + ·) a.params b.params⟩ :: l
      else a :: b :: l

/-- Modelled from the spec: the phase-gadget resynthesis rewrite -
align and merge gadget chains, then expand every gadget through the
chosen CX configuration; all other gates are rebased to CX and
TK1. -/
def gadgetRewrite (cfg : CXConfigType) (c : Circuit) : Circuit :=
  { c with
    ops := (mergeGadgets c.ops).flatMap (fun op =>
      if op.type = .PhaseGadget then expandGadget cfg op.args op.params else toCXTK1 op) }

/-- Modelled from the spec: depth-saving resynthesis of phase gadgets
with alignment, producing CX and TK1 gates; the source declaration
defaults the configuration to CXConfigType::Snake (header line 129). -/
def optimise_via_PhaseGadget (cx_config : CXConfigType := CXConfigType.Snake) : Transform :=
  mkPass (gadgetRewrite cx_config)

/-- Modelled from the spec: the kitchen-sink optimisation of the
header - phase gadget resynthesis, two-qubit Cartan forms and
Clifford squashing (header line 73). -/
def canonical_hyper_clifford_squash : Transform :=
  sequenceT (optimise_via_PhaseGadget CXConfigType.Snake) (hyper_clifford_squash true)

/-- Modelled from the spec: synthesis into TK2 and TK1 gates only;
synthesis passes preserve connectivity (header lines 94 and 97). -/
def synthesise_tk : Transform :=
  mkPass (fun c => { c with ops := c.ops.flatMap toTK2TK1 })

/-- Modelled from the spec: synthesis into CX and TK1 gates only
(header line 102). -/
def synthesise_tket : Transform :=
  mkPass (fun c => { c with ops := squashInverses (c.ops.flatMap toCXTK1) })

/-- Modelled from the spec: conversion into the OQC primitives
(header line 106). -/
def synthesise_OQC : Transform :=
  mkPass (fun c => { c with ops := c.ops.flatMap toOQC })

/-- Modelled from the spec: conversion into the HQS primitives; its
Expects is CX and any single-qubit gates (header line 111). -/
def synthesise_HQS : Transform :=
  mkCheckedPass cliffordExpects .PreconditionError
    (fun c => { c with ops := c.ops.flatMap toHQS })

/-- Modelled from the spec: conversion into the UMD primitives
(header line 116). -/
def synthesise_UMD : Transform :=
  mkPass (fun c => { c with ops := c.ops.flatMap toUMD })

/-- The passes declared by the header, with their configuration
parameters. -/
inductive PassId where
  | peephole_optimise_2q (allow_swaps : Bool)
  | full_peephole_optimise (allow_swaps : Bool) (target_2qb_gate : OpType)
  | zx_graphlike_optimisation
  | try_zx_graphlike_optimisation (criterion : Circuit → Circuit → Bool)
  | canonical_hyper_clifford_squash
  | hyper_clifford_squash (allow_swaps : Bool)
  | clifford_simp (allow_swaps : Bool)
  | synthesise_tk
  | synthesise_tket
  | synthesise_OQC
  | synthesise_HQS
  | synthesise_UMD
  | optimise_via_PhaseGadget (cx_config : CXConfigType)

/-- Dispatch a pass identifier to its transform. -/
def applyPass : PassId → Transform
  | .peephole_optimise_2q s => peephole_optimise_2q s
  | .full_peephole_optimise s t => full_peephole_optimise s t
  | .zx_graphlike_optimisation => zx_graphlike_optimisation
  | .try_zx_graphlike_optimisation crit => try_zx_graphlike_optimisation crit
  | .canonical_hyper_clifford_squash => canonical_hyper_clifford_squash
  | .hyper_clifford_squash s => hyper_clifford_squash s
  | .clifford_simp s => clifford_simp s
  | .synthesise_tk => synthesise_tk
  | .synthesise_tket => synthesise_tket
  | .synthesise_OQC => synthesise_OQC
  | .synthesise_HQS => synthesise_HQS
  | .synthesise_UMD => synthesise_UMD
  | .optimise_via_PhaseGadget cfg => optimise_via_PhaseGadget cfg

/-- The Produces alphabet each pass declares in the header, when it
declares one (the two ZX passes declare none). -/
def produces : PassId → Option (List OpType)
  | .peephole_optimise_2q _ => some [.CX, .TK1]
  | .full_peephole_optimise _ t =>
      some [if t = .TK2 then OpType.TK2 else OpType.CX, OpType.TK1]
  | .zx_graphlike_optimisation => none
  | .try_zx_graphlike_optimisation _ => none
  | .canonical_hyper_clifford_squash => some [.CX, .TK1]
  | .hyper_clifford_squash _ => some [.CX, .TK1]
  | .clifford_simp _ => some [.CX, .TK1]
  | .synthesise_tk => some [.TK2, .TK1]
  | .synthesise_tket => some [.CX, .TK1]
  | .synthesise_OQC => some [.Rz, .SX, .ECR]
  | .synthesise_HQS => some [.ZZMax, .PhasedX, .Rz]
  | .synthesise_UMD => some [.XXPhase, .PhasedX, .Rz]
  | .optimise_via_PhaseGadget _ => some [.CX, .TK1]

/-- The synthesis family of the header (the passes declared under its
Synthesis Pass section). -/
def isSynthesisPass : PassId → Bool
  | .synthesise_tk => true
  | .synthesise_tket => true
  | .synthesise_OQC => true
  | .synthesise_HQS => true
  | .synthesise_UMD => true
  | _ => false

/-- Modelled from the spec: hyper_clifford_squash as claim C7 and
spec section 4.4 describe it - phase-gadget resynthesis combined with
Cartan-form two-qubit resynthesis and Clifford squashing in one
compound pass.  Stated from the spec's words, to be compared with the
header-faithful hyper_clifford_squash above. -/
def hyper_clifford_squash_asSpecified (allow_swaps : Bool) : Transform :=
  sequenceT (optimise_via_PhaseGadget CXConfigType.Snake)
    (sequenceT twoQubitSquash (clifford_simp allow_swaps))

/-- Idempotent-detectability contract of spec section 4.1: an
application that reports changed = false has not mutated the
circuit. -/
def honest (t : Transform) : Prop :=
  ∀ c, (t.apply c).outcome = .ok false → (t.apply c).circ = c

theorem mkPass_circ (f : Circuit → Circuit) (c : Circuit) :
    ((mkPass f).apply c).circ = f c := by
  simp only [mkPass]
  split
  · next h => exact h.symm
  · rfl

theorem mkPass_ok (f : Circuit → Circuit) (c : Circuit) :
    ∃ b, ((mkPass f).apply c).outcome = .ok b := by
  simp only [mkPass]
  split
  · exact ⟨false, rfl⟩
  · exact ⟨true, rfl⟩

theorem honest_mkPass (f : Circuit → Circuit) : honest (mkPass f) := by
  intro c h
  by_cases hf : f c = c
  · simp [mkPass, hf]
  · simp [mkPass, hf] at h

theorem honest_mkCheckedPass (pre : Circuit → Bool) (e : TransformError)
    (f : Circuit → Circuit) : honest (mkCheckedPass pre e f) := by
  intro c h
  by_cases hp : pre c
  · simp only [mkCheckedPass, hp, if_true] at h ⊢
    exact honest_mkPass f c h
  · simp [mkCheckedPass, hp] at h

theorem honest_sequenceT (t1 t2 : Transform) (h1 : honest t1) (h2 : honest t2) :
    honest (sequenceT t1 t2) := by
  intro c h
  simp only [sequenceT] at h ⊢
  cases hA : t1.apply c with
  | mk c1 o1 =>
    rw [hA] at h
    cases o1 with
    | error e => simp at h
    | ok b1 =>
      dsimp only at h ⊢
      cases hB : t2.apply c1 with
      | mk c2 o2 =>
        rw [hB] at h
        cases o2 with
        | error e => simp at h
        | ok b2 =>
          dsimp only at h ⊢
          rcases Bool.or_eq_false_iff.mp (by simpa using h) with ⟨hb1, hb2⟩
          subst hb1; subst hb2
          have e2 : c2 = c1 := by
            have := h2 c1 (by rw [hB])
            rwa [hB] at this
          have e1 : c1 = c := by
            have := h1 c (by rw [hA])
            rwa [hA] at this
          rw [e2, e1]

theorem honest_conditionalAccept (t : Transform) (criterion : Circuit → Circuit → Bool) :
    honest (conditionalAccept t criterion) := by
  intro c h
  simp only [conditionalAccept] at h ⊢
  cases hA : t.apply c with
  | mk cand o =>
    rw [hA] at h
    cases o with
    | error e => rfl
    | ok b =>
      dsimp only at h ⊢
      split at h
      · simp at h
      · split
        · simp_all
        · rfl

theorem honest_applyPass (p : PassId) : honest (applyPass p) := by
  cases p with
  | peephole_optimise_2q s => exact honest_mkPass _
  | full_peephole_optimise s t =>
    simp only [applyPass, full_peephole_optimise]
    split
    · exact honest_mkPass _
    · exact honest_mkPass _
  | zx_graphlike_optimisation => exact honest_mkCheckedPass _ _ _
  | try_zx_graphlike_optimisation crit => exact honest_conditionalAccept _ _
  | canonical_hyper_clifford_squash =>
    exact honest_sequenceT _ _ (honest_mkPass _)
      (honest_sequenceT _ _ (honest_mkPass _) (honest_mkCheckedPass _ _ _))
  | hyper_clifford_squash s =>
    exact honest_sequenceT _ _ (honest_mkPass _) (honest_mkCheckedPass _ _ _)
  | clifford_simp s => exact honest_mkCheckedPass _ _ _
  | synthesise_tk => exact honest_mkPass _
  | synthesise_tket => exact honest_mkPass _
  | synthesise_OQC => exact honest_mkPass _
  | synthesise_HQS => exact honest_mkCheckedPass _ _ _
  | synthesise_UMD => exact honest_mkPass _
  | optimise_via_PhaseGadget cfg => exact honest_mkPass _

theorem repeatFix_fixpoint (t : Transform) (ht : honest t) :
    ∀ fuel c c' b, repeatFix fuel t c = ⟨c', .ok b⟩ → t.apply c' = ⟨c', .ok false⟩ := by
  intro fuel
  induction fuel with
  | zero =>
    intro c c' b h
    simp [repeatFix] at h
  | succ n ih =>
    intro c c' b h
    simp only [repeatFix] at h
    cases hA : t.apply c with
    | mk c1 o1 =>
      rw [hA] at h
      cases o1 with
      | error e => simp at h
      | ok ch =>
        cases ch with
        | false =>
          dsimp only at h
          injection h with hc1 ho1
          have hcc : c1 = c := by
            have := ht c (by rw [hA])
            rwa [hA] at this
          subst hc1
          subst hcc
          exact hA
        | true =>
          dsimp only at h
          cases hR : repeatFix n t c1 with
          | mk c2 o2 =>
            rw [hR] at h
            cases o2 with
            | error e => simp at h
            | ok b2 =>
              dsimp only at h
              injection h with hc2 ho2
              subst hc2
              exact ih c1 c2 b2 hR

theorem repeatFix_after_fixpoint (t : Transform) (c' : Circuit)
    (hfix : t.apply c' = ⟨c', .ok false⟩) (fuel : Nat) :
    repeatFix (fuel + 1) t c' = ⟨c', .ok false⟩ := by
  simp only [repeatFix]
  rw [hfix]

theorem mem_map_mk {t : OpType} {f : Nat → Op} (hf : ∀ q, (f q).type = t) :
    ∀ (qs : List Nat) (o : Op), o ∈ qs.map f → o.type = t := by
  intro qs o h
  rcases List.mem_map.mp h with ⟨q, _, rfl⟩
  exact hf q

theorem mem_chain2q (t : OpType) : ∀ (qs : List Nat) (o : Op), o ∈ chain2q t qs → o.type = t := by
  intro qs
  induction qs with
  | nil => intro o h; simp [chain2q] at h
  | cons a tail ih =>
    cases tail with
    | nil => intro o h; simp [chain2q] at h
    | cons b rest =>
      intro o h
      simp only [chain2q] at h
      rcases List.mem_cons.mp h with h | h
      · simp [h, mk2q]
      · exact ih o h

theorem pairUpCX_cons2 (a b : Nat) (rest : List Nat) :
    pairUpCX (a :: b :: rest) = (mk2q .CX a b :: (pairUpCX rest).1, b :: (pairUpCX rest).2) := rfl

theorem mem_pairUpCX : ∀ (qs : List Nat) (o : Op), o ∈ (pairUpCX qs).1 → o.type = .CX
  | [] => by intro o h; simp [pairUpCX] at h
  | [a] => by intro o h; simp [pairUpCX] at h
  | a :: b :: rest => by
    intro o h
    rw [pairUpCX_cons2] at h
    rcases List.mem_cons.mp h with h | h
    · simp [h, mk2q]
    · exact mem_pairUpCX rest o h

theorem mem_treeCX : ∀ (fuel : Nat) (qs : List Nat) (o : Op), o ∈ treeCX fuel qs → o.type = .CX := by
  intro fuel
  induction fuel with
  | zero =>
    intro qs o h
    cases qs with
    | nil => simp [treeCX] at h
    | cons a tail =>
      cases tail with
      | nil => simp [treeCX] at h
      | cons b rest => simp [treeCX] at h
  | succ n ih =>
    intro qs o h
    cases qs with
    | nil => simp [treeCX] at h
    | cons a tail =>
      cases tail with
      | nil => simp [treeCX] at h
      | cons b rest =>
        simp only [treeCX, List.mem_append] at h
        rcases h with h | h
        · exact mem_pairUpCX _ o h
        · exact ih _ o h

theorem mem_gadgetShape {l : List Op} {rot : Op} (hl : ∀ o ∈ l, o.type = .CX)
    (hr : rot.type = .TK1) :
    ∀ o ∈ l ++ [rot] ++ l.reverse, o.type = .CX ∨ o.type = .TK1 := by
  intro o h
  simp only [List.mem_append, List.mem_reverse, List.mem_singleton] at h
  rcases h with (h | rfl) | h
  · exact Or.inl (hl o h)
  · exact Or.inr hr
  · exact Or.inl (hl o h)

theorem mem_expandGadget (cfg : CXConfigType) (qs : List Nat) (ps : List Rat) :
    ∀ o ∈ expandGadget cfg qs ps, o.type = .CX ∨ o.type = .TK1 := by
  intro o h
  cases qs with
  | nil => simp [expandGadget] at h
  | cons q0 rest =>
    cases cfg with
    | Star =>
      simp only [expandGadget] at h
      refine mem_gadgetShape ?_ rfl o h
      intro o ho
      rcases List.mem_map.mp ho with ⟨q, _, rfl⟩
      rfl
    | Tree =>
      simp only [expandGadget] at h
      exact mem_gadgetShape (fun o ho => mem_treeCX _ _ o ho) rfl o h
    | Snake =>
      simp only [expandGadget] at h
      exact mem_gadgetShape (fun o ho => mem_chain2q _ _ o ho) rfl o h
    | MultiQGate =>
      simp only [expandGadget] at h
      exact mem_gadgetShape (fun o ho => mem_chain2q _ _ o ho) rfl o h

theorem mem_defaultDecomp {t2 : OpType} {qs : List Nat} {ps : List Rat} :
    ∀ o ∈ (qs.map (fun q => mkTK1 q ps) ++ chain2q t2 qs ++ qs.map (fun q => mkTK1 q [])),
      o.type = t2 ∨ o.type = .TK1 := by
  intro o h
  simp only [List.mem_append] at h
  rcases h with (h | h) | h
  · rcases List.mem_map.mp h with ⟨q, _, rfl⟩; exact Or.inr rfl
  · exact Or.inl (mem_chain2q _ _ o h)
  · rcases List.mem_map.mp h with ⟨q, _, rfl⟩; exact Or.inr rfl

theorem mem_toCXTK1 (op : Op) : ∀ o ∈ toCXTK1 op, o.type = .CX ∨ o.type = .TK1 := by
  intro o h
  rcases op with ⟨t, qs, ps⟩
  cases t with
  | CX => simp only [toCXTK1, List.mem_singleton] at h; simp [h]
  | TK1 => simp only [toCXTK1, List.mem_singleton] at h; simp [h]
  | PhaseGadget => exact mem_expandGadget _ _ _ o (by simpa [toCXTK1] using h)
  | SWAP =>
    rcases qs with _ | ⟨a, _ | ⟨b, _ | ⟨x, t3⟩⟩⟩
    · simp only [toCXTK1] at h
      exact mem_defaultDecomp o h
    · simp only [toCXTK1] at h
      exact mem_defaultDecomp o h
    · simp only [toCXTK1, List.mem_cons, List.not_mem_nil, or_false] at h
      rcases h with rfl | rfl | rfl <;> exact Or.inl rfl
    · simp only [toCXTK1] at h
      exact mem_defaultDecomp o h
  | _ =>
    simp only [toCXTK1] at h
    all_goals exact mem_defaultDecomp o h

theorem mem_toTK2TK1 (op : Op) : ∀ o ∈ toTK2TK1 op, o.type = .TK2 ∨ o.type = .TK1 := by
  intro o h
  rcases op with ⟨t, qs, ps⟩
  cases t with
  | TK2 => simp only [toTK2TK1, List.mem_singleton] at h; simp [h]
  | TK1 => simp only [toTK2TK1, List.mem_singleton] at h; simp [h]
  | SWAP =>
    rcases qs with _ | ⟨a, _ | ⟨b, _ | ⟨x, t3⟩⟩⟩
    · simp only [toTK2TK1] at h
      exact mem_defaultDecomp o h
    · simp only [toTK2TK1] at h
      exact mem_defaultDecomp o h
    · simp only [toTK2TK1, List.mem_singleton] at h
      subst h
      exact Or.inl rfl
    · simp only [toTK2TK1] at h
      exact mem_defaultDecomp o h
  | _ =>
    simp only [toTK2TK1] at h
    all_goals exact mem_defaultDecomp o h

theorem mem_rebaseDecomp {ta tb tc : OpType} {qs : List Nat} {ps : List Rat} :
    ∀ o ∈ (qs.map (fun q => (⟨ta, [q], ps⟩ : Op)) ++ qs.map (fun q => (⟨tb, [q], []⟩ : Op)) ++
        chain2q tc qs),
      o.type = ta ∨ o.type = tb ∨ o.type = tc := by
  intro o h
  simp only [List.mem_append] at h
  rcases h with (h | h) | h
  · rcases List.mem_map.mp h with ⟨q, _, rfl⟩; exact Or.inl rfl
  · rcases List.mem_map.mp h with ⟨q, _, rfl⟩; exact Or.inr (Or.inl rfl)
  · exact Or.inr (Or.inr (mem_chain2q _ _ o h))

theorem mem_toOQC (op : Op) : ∀ o ∈ toOQC op, o.type = .Rz ∨ o.type = .SX ∨ o.type = .ECR := by
  intro o h
  rcases op with ⟨t, qs, ps⟩
  cases t with
  | Rz => simp only [toOQC, List.mem_singleton] at h; simp [h]
  | SX => simp only [toOQC, List.mem_singleton] at h; simp [h]
  | ECR => simp only [toOQC, List.mem_singleton] at h; simp [h]
  | _ =>
    simp only [toOQC] at h
    all_goals exact mem_rebaseDecomp o h

theorem mem_toHQS (op : Op) :
    ∀ o ∈ toHQS op, o.type = .Rz ∨ o.type = .PhasedX ∨ o.type = .ZZMax := by
  intro o h
  rcases op with ⟨t, qs, ps⟩
  cases t with
  | Rz => simp only [toHQS, List.mem_singleton] at h; simp [h]
  | PhasedX => simp only [toHQS, List.mem_singleton] at h; simp [h]
  | ZZMax => simp only [toHQS, List.mem_singleton] at h; simp [h]
  | _ =>
    simp only [toHQS] at h
    all_goals exact mem_rebaseDecomp o h

theorem mem_toUMD (op : Op) :
    ∀ o ∈ toUMD op, o.type = .Rz ∨ o.type = .PhasedX ∨ o.type = .XXPhase := by
  intro o h
  rcases op with ⟨t, qs, ps⟩
  cases t with
  | Rz => simp only [toUMD, List.mem_singleton] at h; simp [h]
  | PhasedX => simp only [toUMD, List.mem_singleton] at h; simp [h]
  | XXPhase => simp only [toUMD, List.mem_singleton] at h; simp [h]
  | _ =>
    simp only [toUMD] at h
    all_goals exact mem_rebaseDecomp o h

theorem mem_squashInverses : ∀ (l : List Op) (o : Op), o ∈ squashInverses l → o ∈ l := by
  intro l
  induction l with
  | nil => intro o h; exact absurd h (by simp [squashInverses])
  | cons a rest ih =>
    intro o h
    simp only [squashInverses] at h
    rcases hr : squashInverses rest with _ | ⟨b, l'⟩ <;> rw [hr] at h <;> dsimp only at h
    · simp at h
      simp [h]
    · by_cases hab : a = b ∧ selfInverseType a.type = true
      · rw [if_pos hab] at h
        right
        exact ih o (hr ▸ List.mem_cons_of_mem b h)
      · rw [if_neg hab] at h
        rcases List.mem_cons.mp h with h | h
        · simp [h]
        · right; exact ih o (hr ▸ h)

theorem mem_cxtk1_pipeline (l : List Op) :
    ∀ o ∈ squashInverses (l.flatMap toCXTK1), o.type = .CX ∨ o.type = .TK1 := by
  intro o h
  have h2 := mem_squashInverses _ o h
  rcases List.mem_flatMap.mp h2 with ⟨op, _, ho⟩
  exact mem_toCXTK1 op o ho

theorem toCXTK1_fixed (o : Op) (h : o.type = .CX ∨ o.type = .TK1) : toCXTK1 o = [o] := by
  rcases o with ⟨t, qs, ps⟩
  rcases h with h | h <;> (simp only [Op.type] at h; subst h; simp [toCXTK1])

theorem flatMap_toCXTK1_fixed :
    ∀ (l : List Op), (∀ o ∈ l, o.type = .CX ∨ o.type = .TK1) → l.flatMap toCXTK1 = l := by
  intro l
  induction l with
  | nil => intro _; rfl
  | cons a rest ih =>
    intro h
    have ha := toCXTK1_fixed a (h a (List.mem_cons_self a rest))
    have hr := ih (fun o ho => h o (List.mem_cons_of_mem a ho))
    simp [List.flatMap_cons, ha, hr]

theorem absorbSwaps_noSwap :
    ∀ (l : List Op) (p : List Nat), (∀ o ∈ l, o.type ≠ .SWAP) → absorbSwaps l p = (l, p) := by
  intro l
  induction l with
  | nil => intro p _; rfl
  | cons op rest ih =>
    intro p h
    have hop : op.type ≠ .SWAP := h op (List.mem_cons_self op rest)
    have ih' := ih p (fun o ho => h o (List.mem_cons_of_mem op ho))
    rcases op with ⟨t, qs, ps⟩
    simp only [Op.type] at hop
    cases t <;> first
      | exact absurd rfl hop
      | simp [absorbSwaps, ih']

theorem cliffordExpects_of_cxtk1 {c : Circuit} (h : ∀ o ∈ c.ops, o.type = .CX ∨ o.type = .TK1) :
    cliffordExpects c = true := by
  simp only [cliffordExpects, List.all_eq_true]
  intro op hop
  rcases h op hop with h' | h' <;> simp [h', isSingleQubitType]

theorem noSwap_of_cliffordExpects {c : Circuit} (h : cliffordExpects c = true) :
    ∀ o ∈ c.ops, o.type ≠ .SWAP := by
  simp only [cliffordExpects, List.all_eq_true] at h
  intro o ho hS
  have h' := h o ho
  rw [hS] at h'
  simp [isSingleQubitType] at h'

theorem mkCheckedPass_of_pre {pre : Circuit → Bool} {e : TransformError}
    {f : Circuit → Circuit} {c : Circuit} (h : pre c = true) :
    (mkCheckedPass pre e f).apply c = (mkPass f).apply c := by
  simp [mkCheckedPass, h]

theorem mkCheckedPass_of_not_pre {pre : Circuit → Bool} {e : TransformError}
    {f : Circuit → Circuit} {c : Circuit} (h : pre c = false) :
    (mkCheckedPass pre e f).apply c = ⟨c, .error e⟩ := by
  simp [mkCheckedPass, h]

theorem sequenceT_eq_ok {t1 t2 : Transform} {c c' : Circuit} {b : Bool}
    (h : (sequenceT t1 t2).apply c = ⟨c', .ok b⟩) :
    ∃ c1 b1 b2, t1.apply c = ⟨c1, .ok b1⟩ ∧ t2.apply c1 = ⟨c', .ok b2⟩ := by
  simp only [sequenceT] at h
  cases hA : t1.apply c with
  | mk c1 o1 =>
    rw [hA] at h
    cases o1 with
    | error e => dsimp only at h; injection h with _ ho; exact absurd ho (by simp)
    | ok b1 =>
      dsimp only at h
      cases hB : t2.apply c1 with
      | mk c2 o2 =>
        rw [hB] at h
        cases o2 with
        | error e => dsimp only at h; injection h with _ ho; exact absurd ho (by simp)
        | ok b2 =>
          dsimp only at h
          injection h with hc ho
          subst hc
          exact ⟨c1, b1, b2, rfl, hB⟩

theorem clifford_eq_ok_mem {s : Bool} {c c' : Circuit} {b : Bool}
    (h : (clifford_simp s).apply c = ⟨c', .ok b⟩) :
    ∀ op ∈ c'.ops, op.type = .CX ∨ op.type = .TK1 := by
  by_cases hp : cliffordExpects c
  · rw [clifford_simp, mkCheckedPass_of_pre hp] at h
    have hc : c' = peepholeRewrite s c := by
      have h2 := mkPass_circ (peepholeRewrite s) c
      rw [h] at h2
      exact h2
    subst hc
    intro op hop
    exact mem_cxtk1_pipeline _ op hop
  · rw [clifford_simp, mkCheckedPass_of_not_pre (Bool.of_not_eq_true hp)] at h
    injection h with _ ho
    exact absurd ho (by simp)

theorem hyper_eq_ok_mem {s : Bool} {c c' : Circuit} {b : Bool}
    (h : (hyper_clifford_squash s).apply c = ⟨c', .ok b⟩) :
    ∀ op ∈ c'.ops, op.type = .CX ∨ op.type = .TK1 := by
  rw [hyper_clifford_squash] at h
  rcases sequenceT_eq_ok h with ⟨c1, b1, b2, _, h2⟩
  exact clifford_eq_ok_mem h2

/-- Claim C2: after a changed = true application of a pass, every
operation of the result belongs to the pass's declared Produces
alphabet; in particular peephole_optimise_2q leaves only CX and TK1
operations. -/
theorem produces_contract (p : PassId) (A : List OpType) (c : Circuit)
    (hA : produces p = some A)
    (hOk : ((applyPass p).apply c).outcome = .ok true) :
    ∀ op ∈ ((applyPass p).apply c).circ.ops, op.type ∈ A := by
  have hEq : (applyPass p).apply c = ⟨((applyPass p).apply c).circ, .ok true⟩ := by
    rw [← hOk]
  cases p with
  | peephole_optimise_2q s =>
    injection hA with hA
    subst hA
    intro op hop
    rw [applyPass, peephole_optimise_2q, mkPass_circ, peepholeRewrite] at hop
    rcases mem_cxtk1_pipeline _ op hop with h | h <;> simp [h]
  | full_peephole_optimise s t =>
    by_cases ht : t = .TK2
    · subst ht
      simp only [produces, if_pos] at hA
      injection hA with hA
      subst hA
      intro op hop
      simp only [applyPass, full_peephole_optimise, if_pos, mkPass_circ, tk2Rewrite] at hop
      have h2 := mem_squashInverses _ op hop
      rcases List.mem_flatMap.mp h2 with ⟨o1, _, ho⟩
      rcases mem_toTK2TK1 o1 op ho with h | h <;> simp [h]
    · simp only [produces, if_neg ht] at hA
      injection hA with hA
      subst hA
      intro op hop
      simp only [applyPass, full_peephole_optimise, if_neg ht, mkPass_circ,
        peepholeRewrite] at hop
      rcases mem_cxtk1_pipeline _ op hop with h | h <;> simp [h]
  | zx_graphlike_optimisation => exact absurd hA (by simp [produces])
  | try_zx_graphlike_optimisation crit => exact absurd hA (by simp [produces])
  | canonical_hyper_clifford_squash =>
    injection hA with hA
    subst hA
    rw [applyPass, canonical_hyper_clifford_squash] at hEq
    rcases sequenceT_eq_ok hEq with ⟨c1, b1, b2, _, h2⟩
    intro op hop
    rw [applyPass, canonical_hyper_clifford_squash] at hop
    rcases hyper_eq_ok_mem h2 op hop with h | h <;> simp [h]
  | hyper_clifford_squash s =>
    injection hA with hA
    subst hA
    rw [applyPass] at hEq
    intro op hop
    rw [applyPass] at hop
    rcases hyper_eq_ok_mem hEq op hop with h | h <;> simp [h]
  | clifford_simp s =>
    injection hA with hA
    subst hA
    rw [applyPass] at hEq
    intro op hop
    rw [applyPass] at hop
    rcases clifford_eq_ok_mem hEq op hop with h | h <;> simp [h]
  | synthesise_tk =>
    injection hA with hA
    subst hA
    intro op hop
    simp only [applyPass, synthesise_tk, mkPass_circ] at hop
    rcases List.mem_flatMap.mp hop with ⟨o1, _, ho⟩
    rcases mem_toTK2TK1 o1 op ho with h | h <;> simp [h]
  | synthesise_tket =>
    injection hA with hA
    subst hA
    intro op hop
    simp only [applyPass, synthesise_tket, mkPass_circ] at hop
    rcases mem_cxtk1_pipeline _ op hop with h | h <;> simp [h]
  | synthesise_OQC =>
    injection hA with hA
    subst hA
    intro op hop
    simp only [applyPass, synthesise_OQC, mkPass_circ] at hop
    rcases List.mem_flatMap.mp hop with ⟨o1, _, ho⟩
    rcases mem_toOQC o1 op ho with h | h | h <;> simp [h]
  | synthesise_HQS =>
    injection hA with hA
    subst hA
    by_cases hp : cliffordExpects c
    · intro op hop
      rw [applyPass, synthesise_HQS, mkCheckedPass_of_pre hp, mkPass_circ] at hop
      dsimp only at hop
      rcases List.mem_flatMap.mp hop with ⟨o1, _, ho⟩
      rcases mem_toHQS o1 op ho with h | h | h <;> simp [h]
    · rw [applyPass, synthesise_HQS,
        mkCheckedPass_of_not_pre (Bool.of_not_eq_true hp)] at hOk
      exact absurd hOk (by simp)
  | synthesise_UMD =>
    injection hA with hA
    subst hA
    intro op hop
    simp only [applyPass, synthesise_UMD, mkPass_circ] at hop
    rcases List.mem_flatMap.mp hop with ⟨o1, _, ho⟩
    rcases mem_toUMD o1 op ho with h | h | h <;> simp [h]
  | optimise_via_PhaseGadget cfg =>
    injection hA with hA
    subst hA
    intro op hop
    simp only [applyPass, optimise_via_PhaseGadget, mkPass_circ, gadgetRewrite] at hop
    rcases List.mem_flatMap.mp hop with ⟨o1, _, ho⟩
    by_cases hg : o1.type = .PhaseGadget
    · rw [if_pos hg] at ho
      rcases mem_expandGadget cfg o1.args o1.params op ho with h | h <;> simp [h]
    · rw [if_neg hg] at ho
      rcases mem_toCXTK1 o1 op ho with h | h <;> simp [h]

/-- Witness for C2 at a concrete input: a circuit holding one H gate
run through synthesise_OQC reports changed and its first output
operation lies in the declared OQC alphabet. -/
theorem produces_contract_witness :
    (⟨OpType.Rz, [0], []⟩ : Op).type ∈ [OpType.Rz, OpType.SX, OpType.ECR] :=
  produces_contract PassId.synthesise_OQC [OpType.Rz, OpType.SX, OpType.ECR]
    ⟨1, [⟨OpType.H, [0], []⟩], [0], [], []⟩ rfl (by decide)
    ⟨OpType.Rz, [0], []⟩ (by decide)

theorem mkPass_apply (f : Circuit → Circuit) (c : Circuit) :
    (mkPass f).apply c = ⟨f c, .ok (decide (f c ≠ c))⟩ := by
  by_cases hf : f c = c
  · simp [mkPass, hf]
  · simp [mkPass, hf]

theorem tryzx_inner_ok {c : Circuit} (hB : hasCreatedOrDiscarded c = false) :
    ∃ c1 b, (sequenceT rebaseZX zx_graphlike_optimisation).apply c = ⟨c1, .ok b⟩ := by
  simp only [sequenceT, rebaseZX, mkPass_apply]
  rw [zx_graphlike_optimisation, mkCheckedPass_of_pre (by simp [hasCreatedOrDiscarded] at hB ⊢; exact hB),
    mkPass_apply]
  exact ⟨_, _, rfl⟩

theorem tryzx_inner_error {c : Circuit} (hB : hasCreatedOrDiscarded c = true) :
    (sequenceT rebaseZX zx_graphlike_optimisation).apply c =
      ⟨{ c with ops := c.ops.flatMap toZXBasis }, .error .UnsupportedCircuitError⟩ := by
  have hB1 : hasCreatedOrDiscarded { c with ops := c.ops.flatMap toZXBasis } = true := hB
  simp only [sequenceT, rebaseZX, mkPass_apply]
  rw [zx_graphlike_optimisation, mkCheckedPass_of_not_pre (by simp [hB1])]

/-- Counterexample to claim C3 as stated: on a circuit that creates a
qubit partway through, try_zx_graphlike_optimisation with an
always-false criterion does not report changed = false - it reports
UnsupportedCircuitError instead (the circuit itself is still
unchanged). -/
theorem tryzx_always_false_counterexample :
    (try_zx_graphlike_optimisation (fun _ _ => false)).apply ⟨1, [], [0], [0], []⟩ ≠
      ⟨⟨1, [], [0], [0], []⟩, .ok false⟩ := by
  decide

/-- Claim C3 as amended: with an acceptance criterion that rejects
every pair, try_zx_graphlike_optimisation always leaves the circuit
structurally identical to its pre-rebase state; on a circuit without
created or discarded qubits the application reports changed = false,
and on a circuit with them it reports UnsupportedCircuitError (the
ZX precondition), still with the circuit unchanged. -/
theorem tryzx_always_false_restores (criterion : Circuit → Circuit → Bool)
    (hcrit : ∀ a b, criterion a b = false) (c : Circuit) :
    ((try_zx_graphlike_optimisation criterion).apply c).circ = c ∧
    (hasCreatedOrDiscarded c = false →
      (try_zx_graphlike_optimisation criterion).apply c = ⟨c, .ok false⟩) ∧
    (hasCreatedOrDiscarded c = true →
      (try_zx_graphlike_optimisation criterion).apply c =
        ⟨c, .error .UnsupportedCircuitError⟩) := by
  by_cases hB : hasCreatedOrDiscarded c
  · have hres : (try_zx_graphlike_optimisation criterion).apply c =
        ⟨c, .error .UnsupportedCircuitError⟩ := by
      simp only [try_zx_graphlike_optimisation, conditionalAccept]
      rw [tryzx_inner_error hB]
    exact ⟨by rw [hres], fun h => by simp [hB] at h, fun _ => hres⟩
  · have hB' : hasCreatedOrDiscarded c = false := Bool.of_not_eq_true hB
    rcases tryzx_inner_ok hB' with ⟨c1, b, hI⟩
    have hres : (try_zx_graphlike_optimisation criterion).apply c = ⟨c, .ok false⟩ := by
      simp only [try_zx_graphlike_optimisation, conditionalAccept]
      rw [hI]
      dsimp only
      rw [hcrit c c1]
      simp
    exact ⟨by rw [hres], fun _ => hres, fun h => by simp [hB'] at h⟩

/-- Witness for the amended C3 at concrete inputs: a one-H circuit
with an always-false criterion is returned untouched with
changed = false. -/
theorem tryzx_always_false_restores_witness :
    (try_zx_graphlike_optimisation (fun _ _ => false)).apply
        ⟨1, [⟨OpType.H, [0], []⟩], [0], [], []⟩ =
      ⟨⟨1, [⟨OpType.H, [0], []⟩], [0], [], []⟩, .ok false⟩ :=
  (tryzx_always_false_restores (fun _ _ => false) (fun _ _ => rfl)
    ⟨1, [⟨OpType.H, [0], []⟩], [0], [], []⟩).2.1 rfl

/-- Claim C4: on a circuit with created or discarded qubits,
zx_graphlike_optimisation fails with UnsupportedCircuitError and the
circuit is unchanged, the check happening before any rewriting. -/
theorem zx_rejects_created_discarded (c : Circuit)
    (h : hasCreatedOrDiscarded c = true) :
    zx_graphlike_optimisation.apply c = ⟨c, .error .UnsupportedCircuitError⟩ := by
  rw [zx_graphlike_optimisation, mkCheckedPass_of_not_pre (by simp [h])]

/-- Witness for C4 at a concrete input: a circuit that creates qubit
0 partway through is rejected unchanged. -/
theorem zx_rejects_created_discarded_witness :
    zx_graphlike_optimisation.apply ⟨1, [], [0], [0], []⟩ =
      ⟨⟨1, [], [0], [0], []⟩, .error .UnsupportedCircuitError⟩ :=
  zx_rejects_created_discarded ⟨1, [], [0], [0], []⟩ rfl

/-- Claim C5: a circuit containing an operation outside clifford_simp's
Expects alphabet (CX plus single-qubit gates) makes clifford_simp
fail with PreconditionError, leaving the circuit identical - the pass
is never partially applied. -/
theorem clifford_simp_rejects_outside_alphabet (c : Circuit)
    (h : cliffordExpects c = false) (s : Bool) :
    (clifford_simp s).apply c = ⟨c, .error .PreconditionError⟩ := by
  rw [clifford_simp, mkCheckedPass_of_not_pre h]

/-- Witness for C5 at a concrete input: a circuit holding an
unrecognized two-qubit Custom gate is rejected unchanged. -/
theorem clifford_simp_rejects_outside_alphabet_witness :
    (clifford_simp true).apply ⟨2, [⟨OpType.Custom, [0, 1], []⟩], [0, 1], [], []⟩ =
      ⟨⟨2, [⟨OpType.Custom, [0, 1], []⟩], [0, 1], [], []⟩, .error .PreconditionError⟩ :=
  clifford_simp_rejects_outside_alphabet ⟨2, [⟨OpType.Custom, [0, 1], []⟩], [0, 1], [], []⟩
    rfl true

/-- Claim C6: every synthesis-family pass leaves the qubit-to-wire
mapping of the circuit exactly as it was - no implicit wire swap is
introduced. -/
theorem synthesis_preserves_wires (p : PassId) (hp : isSynthesisPass p = true)
    (c : Circuit) : ((applyPass p).apply c).circ.perm = c.perm := by
  cases p with
  | synthesise_tk => rw [applyPass, synthesise_tk, mkPass_circ]
  | synthesise_tket => rw [applyPass, synthesise_tket, mkPass_circ]
  | synthesise_OQC => rw [applyPass, synthesise_OQC, mkPass_circ]
  | synthesise_HQS =>
    by_cases hpre : cliffordExpects c
    · rw [applyPass, synthesise_HQS, mkCheckedPass_of_pre hpre, mkPass_circ]
    · rw [applyPass, synthesise_HQS, mkCheckedPass_of_not_pre (Bool.of_not_eq_true hpre)]
  | synthesise_UMD => rw [applyPass, synthesise_UMD, mkPass_circ]
  | peephole_optimise_2q s => simp [isSynthesisPass] at hp
  | full_peephole_optimise s t => simp [isSynthesisPass] at hp
  | zx_graphlike_optimisation => simp [isSynthesisPass] at hp
  | try_zx_graphlike_optimisation crit => simp [isSynthesisPass] at hp
  | canonical_hyper_clifford_squash => simp [isSynthesisPass] at hp
  | hyper_clifford_squash s => simp [isSynthesisPass] at hp
  | clifford_simp s => simp [isSynthesisPass] at hp
  | optimise_via_PhaseGadget cfg => simp [isSynthesisPass] at hp

/-- Witness for C6 at a concrete input: synthesise_HQS on a one-CX
circuit keeps both wires' identities. -/
theorem synthesis_preserves_wires_witness :
    ((applyPass PassId.synthesise_HQS).apply
        ⟨2, [⟨OpType.CX, [0, 1], []⟩], [0, 1], [], []⟩).circ.perm = [0, 1] :=
  synthesis_preserves_wires PassId.synthesise_HQS rfl
    ⟨2, [⟨OpType.CX, [0, 1], []⟩], [0, 1], [], []⟩

/-- Counterexample to claim C7: hyper_clifford_squash is not the
compound pass combining phase-gadget resynthesis with Cartan-form
two-qubit resynthesis and Clifford squashing that the claim
describes.  On a circuit of two adjacent equal phase gadgets the
described compound pass merges the gadgets and emits three gates,
while hyper_clifford_squash (which per the header runs clifford_simp)
expands them separately and emits four. -/
theorem hyper_clifford_squash_counterexample :
    (hyper_clifford_squash true).apply
        ⟨2, [⟨OpType.PhaseGadget, [0, 1], []⟩, ⟨OpType.PhaseGadget, [0, 1], []⟩],
          [0, 1], [], []⟩ ≠
      (hyper_clifford_squash_asSpecified true).apply
        ⟨2, [⟨OpType.PhaseGadget, [0, 1], []⟩, ⟨OpType.PhaseGadget, [0, 1], []⟩],
          [0, 1], [], []⟩ := by
  decide

/-- Claim C7 as amended: the pass combining phase-gadget resynthesis
with Cartan-form two-qubit resynthesis and Clifford squashing in one
compound pass is canonical_hyper_clifford_squash, which is exactly
phase-gadget resynthesis followed by hyper_clifford_squash; and
hyper_clifford_squash does subsume clifford_simp - on every circuit
satisfying clifford_simp's Expects alphabet it reaches exactly the
circuit clifford_simp reaches. -/
theorem canonical_combines_gadgets_cartan_clifford :
    (∀ c, canonical_hyper_clifford_squash.apply c =
      (sequenceT (optimise_via_PhaseGadget CXConfigType.Snake)
        (hyper_clifford_squash true)).apply c) ∧
    (∀ (s : Bool) (c : Circuit), cliffordExpects c = true →
      ((hyper_clifford_squash s).apply c).circ = ((clifford_simp s).apply c).circ) := by
  constructor
  · intro c; rfl
  · intro s c hE
    have hflat : ∀ o ∈ c.ops.flatMap toCXTK1, o.type = .CX ∨ o.type = .TK1 := by
      intro o ho
      rcases List.mem_flatMap.mp ho with ⟨o1, _, h1⟩
      exact mem_toCXTK1 o1 o h1
    have hE1 : cliffordExpects { c with ops := c.ops.flatMap toCXTK1 } = true :=
      cliffordExpects_of_cxtk1 (by simpa using hflat)
    simp only [hyper_clifford_squash, sequenceT, twoQubitSquash, mkPass_apply]
    rw [clifford_simp, mkCheckedPass_of_pre hE1, mkCheckedPass_of_pre hE,
      mkPass_apply, mkPass_circ]
    dsimp only
    have hnos : ∀ o ∈ c.ops, o.type ≠ .SWAP := noSwap_of_cliffordExpects hE
    have hnos1 : ∀ o ∈ c.ops.flatMap toCXTK1, o.type ≠ .SWAP := by
      intro o ho hS
      rcases hflat o ho with h | h <;> rw [hS] at h <;> exact absurd h (by decide)
    have hstep1 : swapsStep s { c with ops := c.ops.flatMap toCXTK1 } =
        (c.ops.flatMap toCXTK1, c.perm) := by
      rw [swapsStep]
      split
      · exact absorbSwaps_noSwap _ _ (by simpa using hnos1)
      · rfl
    have hstep : swapsStep s c = (c.ops, c.perm) := by
      rw [swapsStep]
      split
      · exact absorbSwaps_noSwap _ _ hnos
      · rfl
    simp only [peepholeRewrite, hstep1, hstep]
    rw [flatMap_toCXTK1_fixed _ hflat]

/-- Witness for the amended C7 at a concrete input: on a one-CX
circuit (inside clifford_simp's Expects alphabet) hyper_clifford_squash
reaches the same circuit as clifford_simp. -/
theorem canonical_combines_gadgets_cartan_clifford_witness :
    ((hyper_clifford_squash true).apply ⟨2, [⟨OpType.CX, [0, 1], []⟩], [0, 1], [], []⟩).circ =
      ((clifford_simp true).apply ⟨2, [⟨OpType.CX, [0, 1], []⟩], [0, 1], [], []⟩).circ :=
  canonical_combines_gadgets_cartan_clifford.2 true
    ⟨2, [⟨OpType.CX, [0, 1], []⟩], [0, 1], [], []⟩ rfl

/-- Claim C8: for every pass of the library, an application reporting
changed = false has not mutated the circuit, and after a
repeat-to-fixpoint run finishing without error a further
repeat-to-fixpoint run reports changed = false on the unchanged
circuit. -/
theorem transforms_idempotent_detectable (p : PassId) :
    (∀ c, ((applyPass p).apply c).outcome = .ok false → ((applyPass p).apply c).circ = c) ∧
    (∀ fuel c c' b, repeatFix fuel (applyPass p) c = ⟨c', .ok b⟩ →
      ∀ fuel2, repeatFix (fuel2 + 1) (applyPass p) c' = ⟨c', .ok false⟩) := by
  refine ⟨honest_applyPass p, ?_⟩
  intro fuel c c' b h fuel2
  have hfix := repeatFix_fixpoint (applyPass p) (honest_applyPass p) fuel c c' b h
  exact repeatFix_after_fixpoint _ _ hfix fuel2

/-- Witness for C8 at a concrete input: on the empty one-qubit
circuit peephole_optimise_2q reports changed = false without mutating
it, and a further repeat-to-fixpoint run reports changed = false. -/
theorem transforms_idempotent_detectable_witness :
    ((applyPass (PassId.peephole_optimise_2q true)).apply ⟨1, [], [0], [], []⟩).circ =
        ⟨1, [], [0], [], []⟩ ∧
      repeatFix 1 (applyPass (PassId.peephole_optimise_2q true)) ⟨1, [], [0], [], []⟩ =
        ⟨⟨1, [], [0], [], []⟩, .ok false⟩ :=
  ⟨(transforms_idempotent_detectable (PassId.peephole_optimise_2q true)).1
      ⟨1, [], [0], [], []⟩ (by decide),
    (transforms_idempotent_detectable (PassId.peephole_optimise_2q true)).2 1
      ⟨1, [], [0], [], []⟩ ⟨1, [], [0], [], []⟩ false (by decide) 0⟩

/-- Claim C9: with target two-qubit gate TK2, full_peephole_optimise
behaves identically for allow_swaps true and false (the parameter has
no effect), while with target CX the parameter does matter, shown on
a SWAP circuit. -/
theorem full_peephole_tk2_ignores_swaps :
    (∀ c, (full_peephole_optimise true OpType.TK2).apply c =
        (full_peephole_optimise false OpType.TK2).apply c) ∧
    (full_peephole_optimise true OpType.CX).apply
        ⟨2, [⟨OpType.SWAP, [0, 1], []⟩], [0, 1], [], []⟩ ≠
      (full_peephole_optimise false OpType.CX).apply
        ⟨2, [⟨OpType.SWAP, [0, 1], []⟩], [0, 1], [], []⟩ := by
  constructor
  · intro c; rfl
  · decide

/-- Claim C10: omitting the configuration argument of
optimise_via_PhaseGadget yields exactly the Snake behaviour (the
declared default), and Snake genuinely differs from the Star and Tree
spanning structures on concrete phase gadgets. -/
theorem phase_gadget_default_is_snake :
    (optimise_via_PhaseGadget : Transform) = optimise_via_PhaseGadget CXConfigType.Snake ∧
    (optimise_via_PhaseGadget CXConfigType.Star).apply
        ⟨3, [⟨OpType.PhaseGadget, [0, 1, 2], []⟩], [0, 1, 2], [], []⟩ ≠
      (optimise_via_PhaseGadget CXConfigType.Snake).apply
        ⟨3, [⟨OpType.PhaseGadget, [0, 1, 2], []⟩], [0, 1, 2], [], []⟩ ∧
    (optimise_via_PhaseGadget CXConfigType.Tree).apply
        ⟨4, [⟨OpType.PhaseGadget, [0, 1, 2, 3], []⟩], [0, 1, 2, 3], [], []⟩ ≠
      (optimise_via_PhaseGadget CXConfigType.Snake).apply
        ⟨4, [⟨OpType.PhaseGadget, [0, 1, 2, 3], []⟩], [0, 1, 2, 3], [], []⟩ :=
  ⟨rfl, by decide, by decide⟩

end Tket
